import Mathlib

/-!
Verification of the Rust-Mock server (arthurkowalsky/Rust-Mock).

This development shallowly embeds the request dispatch and endpoint-store
subsystem. `src/src/main.rs` is embedded directly (functions keep their
source names). The library crate (`RustMock::start_server` and friends),
which the binaries in `src/src/bin/` and the integration tests call, is
not part of the provided sources; where a property is decided by that
code, the corresponding definition is modelled from the specification
document and marked `Modelled from the spec:` in its doc comment.
-/

namespace RustMock

/-- JSON values, the embedding of `serde_json::Value`. Numbers are
restricted to integers, which covers every value appearing in the
repository's endpoints and specs. Object and array member order is kept,
mirroring `serde_json`'s preserve-order maps. -/
inductive Json where
  | null : Json
  | bool (b : Bool) : Json
  | num (n : Int) : Json
  | str (s : String) : Json
  | arr (elems : List Json) : Json
  | obj (fields : List (String × Json)) : Json

/-- Object field lookup: `value.get(key)` on a JSON value, `None` on
non-objects (mirrors `serde_json::Value::get`). First field wins. -/
def Json.getKey : Json → String → Option Json
  | .obj fields, k => fields.lookup k
  | _, _ => none

/-! ## Path-template matching

`src/src/main.rs:65` compiles a path template to a regex:

  Regex::new(&format!("^{}$", tpl.replace('{', "(?P<").replace('}', ">[^/]+)"))).unwrap()

and then calls `is_match` on the concrete request path. We embed the two
single-character string replacements, a parser for the fragment of regex
syntax those patterns can produce, and a backtracking matcher. The outer
`Option` of `matchesTemplate` models the `.unwrap()`: `none` means the
pattern is not accepted by the model. Inside the modelled fragment the
model agrees with the `regex` crate, including its two name errors:
capture-group names must start with a letter or underscore and be made
of alphanumerics/underscore, and duplicate capture-group names are
rejected (the parser threads the set of names already seen) — in both
error cases `Regex::new` fails and the source panics, and the model
returns `none`. Patterns using regex features outside the fragment
(alternation, repetition of literals, escapes, …) also map to `none`;
such patterns may be valid regexes, so `none` is read as "the program's
behaviour is not captured" and no theorem concludes anything from it
except at concrete inputs traced against the source by hand. -/

/-- Tokens of the compiled pattern: a literal character, `.` (any char
except newline), and `[^/]+` (one or more non-slash chars; a named
capture group `(?P<name>[^/]+)` matches identically since nothing refers
back to captures). -/
inductive RTok where
  | lit (c : Char) : RTok
  | dot : RTok
  | nsp : RTok
deriving DecidableEq, Repr

/-- Regex metacharacters: a pattern character outside the modelled
fragment. `(` is only accepted as part of the full group form and `[`
only as part of `[^/]+`, handled before this test applies. -/
def metaChar (c : Char) : Bool :=
  c = '(' || c = ')' || c = '[' || c = ']' || c = '{' || c = '}' ||
  c = '*' || c = '+' || c = '?' || c = '|' || c = '^' || c = '$' ||
  c = '\\' || c = '.'

/-- Characters allowed in a capture-group name (`regex` crate identifier
characters as used by this repository: alphanumerics and underscore). -/
def isNameChar (c : Char) : Bool :=
  c.isAlphanum || c = '_'

/-- Characters allowed to start a capture-group name: the `regex` crate
rejects names beginning with a digit, so only letters and underscore. -/
def isNameStartChar (c : Char) : Bool :=
  c.isAlpha || c = '_'

mutual

/-- Parse the body of the produced pattern (between the `^` and `$`
anchors) into tokens, carrying the capture-group names already seen (the
`regex` crate rejects duplicates); `none` when the pattern falls outside
the modelled regex fragment or hits one of the modelled name errors.
A `(` opens the named-group form `(?P<name>[^/]+)` (anything else after
`(` is unmodelled), `[` opens exactly the class `[^/]+`, `.` matches any
non-newline character, any other metacharacter is unmodelled, and every
remaining character is a literal. -/
def compilePat : List Char → List (List Char) → Option (List RTok)
  | [], _ => some []
  | c :: rest, seen =>
      if c = '(' then compileParen rest seen
      else if c = '[' then compileClass rest seen
      else if c = '.' then (compilePat rest seen).map (RTok.dot :: ·)
      else if metaChar c then none
      else (compilePat rest seen).map (RTok.lit c :: ·)

/-- Parse what follows a `(`: only the named-group opener `?P<`. -/
def compileParen : List Char → List (List Char) → Option (List RTok)
  | '?' :: 'P' :: '<' :: rest, seen => compileGroup rest seen []
  | _, _ => none

/-- Parse what follows a `[`: only the class `^/]+`. -/
def compileClass : List Char → List (List Char) → Option (List RTok)
  | '^' :: '/' :: ']' :: '+' :: rest, seen => (compilePat rest seen).map (RTok.nsp :: ·)
  | _, _ => none

/-- Parse the remainder of a named group `(?P<` *name* `>[^/]+)`,
accumulating the name: its first character must be a letter or
underscore, subsequent ones identifier characters, as the `regex` crate
demands. -/
def compileGroup : List Char → List (List Char) → List Char → Option (List RTok)
  | [], _, _ => none
  | c :: rest, seen, acc =>
      if c = '>' then compileGroupTail rest seen acc
      else if (if acc.isEmpty then isNameStartChar c else isNameChar c) then
        compileGroup rest seen (acc ++ [c])
      else none

/-- Parse what follows the `>` closing a group name: exactly `[^/]+)`.
The accumulated name must be nonempty and not previously used —
`Regex::new` fails on an empty or duplicate capture-group name. -/
def compileGroupTail : List Char → List (List Char) → List Char → Option (List RTok)
  | '[' :: '^' :: '/' :: ']' :: '+' :: ')' :: rest, seen, acc =>
      if acc = [] ∨ acc ∈ seen then none
      else (compilePat rest (acc :: seen)).map (RTok.nsp :: ·)
  | _, _, _ => none

end

/-- `tpl.replace('{', "(?P<")` from `src/src/main.rs:65`, character by
character. -/
def expandOpen : List Char → List Char
  | [] => []
  | c :: cs => (if c = '{' then ['(', '?', 'P', '<'] else [c]) ++ expandOpen cs

/-- `.replace('}', ">[^/]+)")` from `src/src/main.rs:65`, character by
character (applied to the output of `expandOpen`). -/
def expandClose : List Char → List Char
  | [] => []
  | c :: cs => (if c = '}' then ['>', '[', '^', '/', ']', '+', ')'] else [c]) ++ expandClose cs

/-- Backtracking matcher core, structurally recursive on the input
characters: `rmatchAux cs ts` decides whether token list `ts` matches
the whole of `cs`. In the `[^/]+` case the token may either stop after
the consumed character or keep consuming (backtracking). -/
def rmatchAux : List Char → List RTok → Bool
  | [], ts => ts.isEmpty
  | x :: xs, ts =>
      match ts with
      | [] => false
      | .lit c :: ts' => x == c && rmatchAux xs ts'
      | .dot :: ts' => decide (x ≠ '\n') && rmatchAux xs ts'
      | .nsp :: ts' => decide (x ≠ '/') && (rmatchAux xs ts' || rmatchAux xs ts)

/-- Backtracking matcher for a token list against a full input string
(the `^...$` anchoring of the source means `is_match` is a full match). -/
def rmatch (ts : List RTok) (cs : List Char) : Bool :=
  rmatchAux cs ts

/-- The template matcher of `src/src/main.rs:65-66`: build the pattern by
the two replacements, compile it (no names seen yet), and match the
concrete path. `some b` is the result of `is_match`; `none` covers the
panic of `.unwrap()` on an invalid pattern as well as patterns outside
the modelled fragment. -/
def matchesTemplate (tpl path : List Char) : Option Bool :=
  (compilePat (expandClose (expandOpen tpl)) []).map (fun ts => rmatch ts path)

/-! ### Declarative template semantics

To state what the matcher ought to do, a template is viewed as a list of
pieces: literal characters and `{name}` placeholders. `renderPieces`
rebuilds the template string, and `Renders` is the substitution
semantics of the specification: each placeholder is replaced by a
non-empty slash-free string. -/

/-- A syntactic piece of a path template. -/
inductive TPiece where
  | lit (c : Char) : TPiece
  | hole (name : List Char) : TPiece
deriving DecidableEq, Repr

/-- The template string denoted by a list of pieces. -/
def renderPieces : List TPiece → List Char
  | [] => []
  | .lit c :: ps => c :: renderPieces ps
  | .hole n :: ps => '{' :: (n ++ '}' :: renderPieces ps)

/-- The token list a well-formed piece list compiles to. -/
def toksOfPieces : List TPiece → List RTok
  | [] => []
  | .lit c :: ps => .lit c :: toksOfPieces ps
  | .hole _ :: ps => .nsp :: toksOfPieces ps

/-- Names of the placeholders of a template, in order. -/
def holeNames : List TPiece → List (List Char)
  | [] => []
  | .lit _ :: ps => holeNames ps
  | .hole n :: ps => n :: holeNames ps

/-- A single piece is well formed: a literal must not be a regex
metacharacter (else the translated pattern means something other than
the literal); a placeholder name must be a nonempty identifier starting
with a letter or underscore — the `regex` crate rejects digit-initial
capture names. -/
def pieceOk : TPiece → Prop
  | .lit c => metaChar c = false
  | .hole n => n ≠ [] ∧ (∀ c ∈ n, isNameChar c = true) ∧
      ∀ c ∈ n.take 1, isNameStartChar c = true

instance : DecidablePred pieceOk := fun p => by
  cases p <;> simp [pieceOk] <;> infer_instance

/-- A well-formed template: every piece is well formed and placeholder
names are pairwise distinct (the `regex` crate rejects duplicate capture
group names). -/
def PiecesWf (ps : List TPiece) : Prop :=
  (∀ p ∈ ps, pieceOk p) ∧ (holeNames ps).Nodup

instance : DecidablePred PiecesWf := fun ps => by
  unfold PiecesWf; infer_instance

/-- Substitution semantics from the specification: `Renders ps path`
holds iff replacing each `{name}` placeholder of the template by some
non-empty slash-free string yields exactly `path`. -/
inductive Renders : List TPiece → List Char → Prop where
  | nil : Renders [] []
  | lit {c : Char} {ps : List TPiece} {cs : List Char} :
      Renders ps cs → Renders (.lit c :: ps) (c :: cs)
  | hole {n : List Char} {ps : List TPiece} (s : List Char) {cs : List Char} :
      s ≠ [] → (∀ c ∈ s, c ≠ '/') → Renders ps cs →
      Renders (.hole n :: ps) (s ++ cs)

/-! ## The OpenAPI document model

The embedding of the fragment of `openapiv3` data that
`src/src/main.rs` consumes: path items with the five method slots,
operations with a responses map keyed by numeric status, media objects
with an optional JSON `example`. `ReferenceOr` is kept, since the source
pattern-matches on `ReferenceOr::Item` and silently skips `$ref`s. -/

structure MediaObj where
  exampleVal : Option Json

structure RespObj where
  content : List (String × MediaObj)

/-- `ReferenceOr<Response>`. -/
inductive RespOrRef where
  | ref (r : String) : RespOrRef
  | item (v : RespObj) : RespOrRef

structure Operation where
  responses : List (Nat × RespOrRef)

structure PathItem where
  get : Option Operation
  post : Option Operation
  put : Option Operation
  patch : Option Operation
  delete : Option Operation

/-- `ReferenceOr<PathItem>`. -/
inductive ItemOrRef where
  | ref (r : String) : ItemOrRef
  | item (v : PathItem) : ItemOrRef

/-- A parsed OpenAPI document, reduced to its paths map (the only part
the embedded code reads). Keys are path templates; the underlying JSON
object makes them unique. -/
structure SpecDoc where
  paths : List (String × ItemOrRef)

/-- A path item with no operations (`json!({})` for a fresh path). -/
def emptyItem : PathItem := ⟨none, none, none, none, none⟩

/-- The method dispatch table of the source (`match method { "GET" => &path_item.get, ... }`). -/
def opFor (item : PathItem) : String → Option Operation
  | "GET" => item.get
  | "POST" => item.post
  | "PUT" => item.put
  | "PATCH" => item.patch
  | "DELETE" => item.delete
  | _ => none

/-- The `[("GET", &path_item.get), ...]` iteration table used by
`get_config`, `import_openapi` and `main`. -/
def methodOps (item : PathItem) : List (String × Option Operation) :=
  [("GET", item.get), ("POST", item.post), ("PUT", item.put),
   ("PATCH", item.patch), ("DELETE", item.delete)]

/-- `extract_example_response` (src/src/main.rs:90-101): the example is
taken from the `200` response only, through `ReferenceOr::Item` and the
`application/json` media entry. -/
def extract_example_response (op : Operation) : Option Json :=
  match op.responses.lookup 200 with
  | some (.item resp) =>
      match resp.content.lookup "application/json" with
      | some media => media.exampleVal
      | none => none
  | _ => none

/-- `get_operation` (src/src/main.rs:62-82): scan the spec's paths in
order; for each non-`$ref` item whose template regex matches the request
path, return the operation for the method if defined, else keep
scanning. The outer `Option` is `none` when compiling some scanned
template's regex panics (`Regex::new(...).unwrap()`). -/
def get_operation : List (String × ItemOrRef) → String → String → Option (Option Operation)
  | [], _, _ => some none
  | (_tpl, .ref _) :: rest, method, path => get_operation rest method path
  | (tpl, .item item) :: rest, method, path =>
      match matchesTemplate tpl.data path.data with
      | none => none
      | some true =>
          match opFor item method with
          | some op => some (some op)
          | none => get_operation rest method path
      | some false => get_operation rest method path

/-- ASCII upper-casing, the embedding of `str::to_uppercase()` as applied
to HTTP method tokens (which are ASCII). -/
def toUpperStr (s : String) : String := ⟨s.data.map Char.toUpper⟩

/-- ASCII lower-casing, the embedding of `str::to_lowercase()` as applied
to HTTP method tokens. -/
def toLowerStr (s : String) : String := ⟨s.data.map Char.toLower⟩

/-! ## The endpoint store

`HashMap<(String, String), _>` is modelled as an association list with
unique keys; `insert` replaces the previous binding. Iteration order of
the hash map is arbitrary, so no theorem below depends on the order the
list imposes beyond "some/first match" semantics. -/

/-- `map.get(&key)`. -/
def lookupKey {β : Type} : List ((String × String) × β) → (String × String) → Option β
  | [], _ => none
  | (k, v) :: rest, q => if k = q then some v else lookupKey rest q

/-- Remove every binding of a key. -/
def eraseKey {β : Type} : List ((String × String) × β) → (String × String) → List ((String × String) × β)
  | [], _ => []
  | (k, v) :: rest, q => if k = q then eraseKey rest q else (k, v) :: eraseKey rest q

/-- `map.insert(key, value)`: replace any existing binding. -/
def insertKey {β : Type} (s : List ((String × String) × β)) (k : String × String) (v : β) :
    List ((String × String) × β) :=
  (k, v) :: eraseKey s k

/-! ## Embedding of `src/src/main.rs` -/

/-- `DynamicEndpoint` (src/src/main.rs:24-29). -/
structure DynamicEndpoint where
  response : Json
  status : Nat
  headers : Option (List (String × String))

/-- `RequestLog` (src/src/main.rs:13-22). -/
structure RequestLog where
  method : String
  path : String
  headers : List (String × String)
  query : String
  body : Option Json
  timestamp : String
  status : Nat

/-- `AppState` (src/src/main.rs:31-37). Mutex wrappers drop away in the
sequential model. -/
structure AppState where
  dynamic : List ((String × String) × DynamicEndpoint)
  removed_spec : List (String × String)
  spec : Option SpecDoc
  raw_spec : Option Json
  logs : List RequestLog

/-- `EndpointConfig` (src/src/main.rs:47-54), the body of a management
add request as `main.rs` deserializes it. -/
structure EndpointConfig where
  method : String
  path : String
  response : Json
  status : Option Nat
  headers : Option (List (String × String))

/-- `add_endpoint` (src/src/main.rs:103-109): default the status to 200
and insert, replacing any existing key. No method validation, no
case normalization, no status range check; the reply is always
`200 {"added": true}`. -/
def add_endpoint (st : AppState) (cfg : EndpointConfig) : AppState :=
  let status := cfg.status.getD 200
  let ep : DynamicEndpoint := ⟨cfg.response, status, cfg.headers⟩
  { st with dynamic := insertKey st.dynamic (cfg.method, cfg.path) ep }

/-- `remove_endpoint` (src/src/main.rs:111-122): erase the key from the
dynamic store if present (reply `true`), else insert it into the
removed-spec set (reply is `HashSet::insert`'s boolean). -/
def remove_endpoint (st : AppState) (method path : String) : AppState × Bool :=
  let key := (method, path)
  match lookupKey st.dynamic key with
  | some _ => ({ st with dynamic := eraseKey st.dynamic key }, true)
  | none =>
      if key ∈ st.removed_spec then (st, false)
      else ({ st with removed_spec := key :: st.removed_spec }, true)

/-- `actix_web::http::StatusCode::from_u16` composed with the source's
`.unwrap()` (src/src/main.rs:313): the conversion succeeds exactly for
codes in `[100, 999]`; outside that range the source panics, modelled
as `none`. -/
def statusCodeFromU16 (s : Nat) : Option Nat :=
  if 100 ≤ s ∧ s ≤ 999 then some s else none

/-- The data of an incoming HTTP request as `dispatch` reads it. `body`
is `serde_json::from_slice(&body).ok()`: `none` for empty or invalid
JSON. -/
structure HttpReq where
  method : String
  path : String
  headers : List (String × String)
  query : String
  body : Option Json

/-- The observable part of the response `dispatch` builds: status code
and optional JSON body. -/
structure DispatchResponse where
  status : Nat
  body : Option Json

/-- `dispatch` (src/src/main.rs:304-331): exact dynamic lookup, else the
OpenAPI example branch, else 404; then push exactly one `RequestLog`
carrying the decided status. The outer `Option` is `none` when the
source panics (stored status outside `[100, 999]` at line 313, or a
spec path template whose regex does not compile at line 65); in that
case no response is produced and no log entry is pushed. -/
def dispatch (st : AppState) (req : HttpReq) (timestamp : String) :
    Option (DispatchResponse × AppState) :=
  let method := toUpperStr req.method
  let path := req.path
  let respO : Option DispatchResponse :=
    match lookupKey st.dynamic (method, path) with
    | some ep => (statusCodeFromU16 ep.status).map (fun s => ⟨s, some ep.response⟩)
    | none =>
        match st.spec with
        | some doc =>
            (get_operation doc.paths method path).map (fun opO =>
              match opO with
              | some op =>
                  match extract_example_response op with
                  | some ex => ⟨200, some ex⟩
                  | none => ⟨200, none⟩
              | none => ⟨404, none⟩)
        | none => some ⟨404, none⟩
  respO.map (fun r =>
    (r, { st with
          logs := st.logs ++
            [⟨method, path, req.headers, req.query, req.body, timestamp, r.status⟩] }))

/-- `get_request_schema` (src/src/main.rs:84-88): walk the raw JSON spec
down to the request body schema of a (method, path) operation. -/
def get_request_schema (raw : Json) (method path : String) : Option Json :=
  ((((((raw.getKey "paths").bind (fun v => v.getKey path)).bind
      (fun v => v.getKey (toLowerStr method))).bind
      (fun v => v.getKey "requestBody")).bind
      (fun v => v.getKey "content")).bind
      (fun v => v.getKey "application/json")).bind
      (fun v => v.getKey "schema")

/-- One element of the `GET /__mock/config` reply: either a spec-derived
descriptor or a dynamic-endpoint descriptor (the two `json!` shapes of
src/src/main.rs:137 and 146). -/
inductive ConfigEntry where
  | specEntry (method path : String) (requestSchema : Option Json) (responseExample : Option Json)
  | dynEntry (method path : String) (response : Json) (status : Nat)
      (headers : Option (List (String × String)))

/-- The method/path key a config entry describes. -/
def ConfigEntry.key : ConfigEntry → String × String
  | .specEntry m p _ _ => (m, p)
  | .dynEntry m p _ _ _ => (m, p)

/-- Whether a config entry is a spec-derived descriptor. -/
def ConfigEntry.isSpec : ConfigEntry → Bool
  | .specEntry _ _ _ _ => true
  | .dynEntry _ _ _ _ _ => false

/-- The spec-derived config entries of one path item
(src/src/main.rs:131-139): a descriptor per defined method whose
(method, template) key is not in the removed-spec set. -/
def specEntriesForPath (raw : Json) (removed : List (String × String))
    (tpl : String) (item : PathItem) : List ConfigEntry :=
  (methodOps item).filterMap (fun mo =>
    match mo.2 with
    | some op =>
        if (mo.1, tpl) ∈ removed then none
        else some (.specEntry mo.1 tpl (get_request_schema raw mo.1 tpl)
          (extract_example_response op))
    | none => none)

/-- The outer loop of `get_config` over the spec's paths
(src/src/main.rs:129-141), skipping `$ref` path items. -/
def specConfigEntries (raw : Json) (removed : List (String × String)) :
    List (String × ItemOrRef) → List ConfigEntry
  | [] => []
  | (_, .ref _) :: rest => specConfigEntries raw removed rest
  | (tpl, .item item) :: rest =>
      specEntriesForPath raw removed tpl item ++ specConfigEntries raw removed rest

/-- `get_config` (src/src/main.rs:124-149): spec-derived entries (only
when both the parsed spec and the raw spec are present, skipping
removed keys), followed by one entry per dynamic endpoint. -/
def get_config (st : AppState) : List ConfigEntry :=
  (match st.spec, st.raw_spec with
   | some doc, some raw => specConfigEntries raw st.removed_spec doc.paths
   | _, _ => []) ++
  st.dynamic.map (fun kv => .dynEntry kv.1.1 kv.1.2 kv.2.response kv.2.status kv.2.headers)

/-- `main`'s OpenAPI loading chain (src/src/main.rs:338-341):
`env::var(..).ok()`, then `fs::read_to_string(..).ok()`, then
`serde_json::from_str::<Value>(..).ok()` — every failure is swallowed
into `None`. The effects are abstracted as functions. -/
def load_raw_spec (envVar : Option String) (readFile : String → Option String)
    (parseJson : String → Option Json) : Option Json :=
  (envVar.bind readFile).bind parseJson

/-- The `AppState` built at startup (src/src/main.rs:338-358): the parsed
spec is the raw JSON re-parsed as an OpenAPI document with the error
swallowed (`..ok()`); stores, removed set and logs start empty. This is
a total function: startup never fails on a missing, unreadable or
unparseable `OPENAPI_FILE`. -/
def startup_state (envVar : Option String) (readFile : String → Option String)
    (parseJson : String → Option Json) (parseOpenApi : Json → Option SpecDoc) : AppState :=
  let raw := load_raw_spec envVar readFile parseJson
  ⟨[], [], raw.bind parseOpenApi, raw, []⟩

/-! ## The library server

The binaries `src/src/bin/server.rs` and `src/src/bin/mokku.rs` and the
integration tests under `src/tests/` run `RustMock::start_server`, whose
source (the library crate) is not among the provided files; `main.rs`
holds an older, reduced variant of the same handlers. Definitions in
this section are therefore modelled from the specification document
(§3-§4.6) and are marked as such. -/

/-- Modelled from the spec: the library's `DynamicEndpoint` (spec §3),
which extends the `main.rs` record with the optional per-endpoint
`proxyUrl` (visible in `EndpointConfig` of `src/src/bin/mokku.rs`). -/
structure LibEndpoint where
  response : Json
  status : Nat
  headers : Option (List (String × String))
  proxyUrl : Option String

/-- Modelled from the spec: the library's `EndpointConfig` — the add
request body with `proxy_url`, exactly the fields serialized by
`src/src/bin/mokku.rs:335-342`. -/
structure LibEndpointConfig where
  method : String
  path : String
  response : Json
  status : Option Nat
  headers : Option (List (String × String))
  proxy_url : Option String

/-- The closed method set of the specification (§3, §4.6). -/
def allowedMethods : List String := ["GET", "POST", "PUT", "PATCH", "DELETE"]

/-- Modelled from the spec: the library's add handler (spec §4.6, absent
from src/) — normalize the method to upper case, reject methods outside
the closed set with 400 leaving the store untouched, default the status
to 200, and insert replacing any existing key. Returns the reply status
and the new store. -/
def lib_add_endpoint (store : List ((String × String) × LibEndpoint))
    (cfg : LibEndpointConfig) : Nat × List ((String × String) × LibEndpoint) :=
  let m := toUpperStr cfg.method
  if m ∈ allowedMethods then
    (200, insertKey store (m, cfg.path) ⟨cfg.response, cfg.status.getD 200, cfg.headers, cfg.proxy_url⟩)
  else
    (400, store)

/-- Modelled from the spec: the library server's state as dispatch reads
it (spec §3) — the dynamic store, the removed-spec set, the default
proxy URL and the OpenAPI context. -/
structure LibState where
  dynamic : List ((String × String) × LibEndpoint)
  removed_spec : List (String × String)
  defaultProxy : Option String
  spec : Option SpecDoc

/-- Modelled from the spec: the library path matcher's totalization
(spec §4.2, "Templates with malformed brace nesting yield `false`
(never an error)") over the source's regex translation. -/
def libMatches (tpl path : String) : Bool :=
  (matchesTemplate tpl.data path.data).getD false

/-- Modelled from the spec: steps 1-2 of the dispatch cascade (spec
§4.5) — exact key lookup, else a scan for the first entry with the
request's method whose stored path, treated as a template, matches the
concrete path. -/
def matchDynamic (store : List ((String × String) × LibEndpoint))
    (method path : String) : Option ((String × String) × LibEndpoint) :=
  match lookupKey store (method, path) with
  | some ep => some ((method, path), ep)
  | none => store.find? (fun kv => kv.1.1 = method && libMatches kv.1.2 path)

/-- Modelled from the spec: the dispatch-side preferred status for an
OpenAPI example (spec §4.5 step 5: order 200, 201, 204, 202 — note it
differs from the import order). -/
def dispatchPreferredStatus (op : Operation) : Nat :=
  if (op.responses.lookup 200).isSome then 200
  else if (op.responses.lookup 201).isSome then 201
  else if (op.responses.lookup 204).isSome then 204
  else if (op.responses.lookup 202).isSome then 202
  else 200

/-- Modelled from the spec: example extraction at a given status — the
`application/json` example of the non-`$ref` response under that
status. -/
def exampleAt (op : Operation) (status : Nat) : Option Json :=
  match op.responses.lookup status with
  | some (.item resp) =>
      match resp.content.lookup "application/json" with
      | some media => media.exampleVal
      | none => none
  | _ => none

/-- Modelled from the spec: the OpenAPI-example arm of dispatch (spec
§4.5 step 5): scan the parsed spec's paths; on the first template that
matches the path with an operation for the method, reply 200 with the
extracted example (or an empty body when there is none). The removed
set is not consulted here. -/
def specExampleArm : List (String × ItemOrRef) → String → String → Option (Option Json)
  | [], _, _ => none
  | (_, .ref _) :: rest, method, path => specExampleArm rest method path
  | (tpl, .item item) :: rest, method, path =>
      if libMatches tpl path then
        match opFor item method with
        | some op => some (exampleAt op (dispatchPreferredStatus op))
        | none => specExampleArm rest method path
      else specExampleArm rest method path

/-- The tagged result of the dispatch cascade (spec §9: "a tagged
variant with five arms"). The canned arm carries the status, body and
headers of the composed response; proxy arms carry the target URL
(forwarding itself is outside the model). -/
inductive Outcome where
  | canned (key : String × String) (status : Nat) (body : Json)
      (headers : List (String × String))
  | proxied (url : String)
  | defaultProxied (url : String)
  | specExample (body : Option Json)
  | notFound

/-- Modelled from the spec: the full dispatch cascade (spec §4.5, absent
from src/): (1) exact dynamic match, (2) template dynamic match, (3)
per-endpoint proxy or canned response — custom headers first, then the
default `content-type: application/json` —, (4) default proxy, (5)
OpenAPI example, (6) 404. -/
def lib_dispatch (st : LibState) (method path : String) : Outcome :=
  match matchDynamic st.dynamic method path with
  | some (key, ep) =>
      match ep.proxyUrl with
      | some url => .proxied url
      | none =>
          .canned key ep.status ep.response
            (ep.headers.getD [] ++ [("content-type", "application/json")])
  | none =>
      match st.defaultProxy with
      | some url => .defaultProxied url
      | none =>
          match st.spec with
          | some doc =>
              match specExampleArm doc.paths method path with
              | some body => .specExample body
              | none => .notFound
          | none => .notFound

/-- Modelled from the spec: the import-side preferred status (spec §4.3:
test the responses map in the order 201, 204, 202, 200; 200 if none are
present). -/
def importPreferredStatus (op : Operation) : Nat :=
  if (op.responses.lookup 201).isSome then 201
  else if (op.responses.lookup 204).isSome then 204
  else if (op.responses.lookup 202).isSome then 202
  else 200

/-- The default import body `{"message": "OK"}`. -/
def messageOK : Json := .obj [("message", .str "OK")]

/-- Modelled from the spec: the dynamic endpoint the library's import
inserts for one operation (spec §4.3): preferred status, the example at
that status or `{"message": "OK"}`, a sole `Content-Type` header, no
proxy. -/
def endpointOfOp (op : Operation) : LibEndpoint :=
  ⟨(exampleAt op (importPreferredStatus op)).getD messageOK,
   importPreferredStatus op,
   some [("Content-Type", "application/json")],
   none⟩

/-- The (key, endpoint) pairs one path item contributes to an import, in
the fixed method order GET, POST, PUT, PATCH, DELETE. -/
def importOps (path : String) (item : PathItem) :
    List ((String × String) × LibEndpoint) :=
  (methodOps item).filterMap (fun mo =>
    mo.2.map (fun op => ((mo.1, path), endpointOfOp op)))

/-- All insertions a successful import performs, in document order,
skipping `$ref` path items. -/
def importEntries : List (String × ItemOrRef) → List ((String × String) × LibEndpoint)
  | [] => []
  | (_, .ref _) :: rest => importEntries rest
  | (p, .item item) :: rest => importOps p item ++ importEntries rest

/-- Modelled from the spec: the store mutation of a successful
`import_openapi` (spec §4.3, absent from src/): insert an endpoint per
defined (path, method) operation, replacing existing keys. -/
def lib_import (doc : SpecDoc) (store : List ((String × String) × LibEndpoint)) :
    List ((String × String) × LibEndpoint) :=
  (importEntries doc.paths).foldl (fun s kv => insertKey s kv.1 kv.2) store

/-! ## Export -/

/-- The operation object `export_openapi` writes for one endpoint
(src/src/main.rs:268-281), restricted to the fields the import side
reads back: a single response under the endpoint's status whose
`application/json` content carries the stored response as `example`
(summary, operationId, requestBody and schemas are regenerated
boilerplate and are not modelled). -/
def mkExportOp (ep : LibEndpoint) : Operation :=
  ⟨[(ep.status, .item ⟨[("application/json", ⟨some ep.response⟩)]⟩)]⟩

/-- Writing an operation into a path item under a method key: the JSON
key is `method.to_lowercase()` (src/src/main.rs:284), which the OpenAPI
parser binds back to the corresponding slot; methods outside the closed
set land in the parser's extension map and are dropped. -/
def setOp (item : PathItem) : String → Operation → PathItem
  | "GET", op => { item with get := some op }
  | "POST", op => { item with post := some op }
  | "PUT", op => { item with put := some op }
  | "PATCH", op => { item with patch := some op }
  | "DELETE", op => { item with delete := some op }
  | _, _ => item

/-- Update the path item bound to `p`, creating it from `json!({})` if
absent (src/src/main.rs:242-247). -/
def assocUpdate : List (String × PathItem) → String → (PathItem → PathItem) →
    List (String × PathItem)
  | [], p, f => [(p, f emptyItem)]
  | (q, it) :: rest, p, f =>
      if q = p then (q, f it) :: rest else (q, it) :: assocUpdate rest p f

/-- One iteration of the export loop (src/src/main.rs:240-285): write
the endpoint's operation into the path item of its path under its
method. -/
def exportStep (acc : List (String × PathItem)) (kv : (String × String) × LibEndpoint) :
    List (String × PathItem) :=
  assocUpdate acc kv.1.2 (fun it => setOp it kv.1.1 (mkExportOp kv.2))

/-- `export_openapi` (src/src/main.rs:235-302), reduced to the paths map
it serializes: fold over the dynamic store, grouping operations by path.
The library's export is the same construction over its endpoint record
(the per-endpoint proxy URL does not participate). -/
def export_openapi (store : List ((String × String) × LibEndpoint)) : SpecDoc :=
  ⟨(store.foldl exportStep []).map (fun pi => (pi.1, ItemOrRef.item pi.2))⟩

/-- A well-formed path template: the rendering of well-formed pieces —
literal characters free of regex metacharacters and `{name}`
placeholders with valid, pairwise distinct capture names. For such
templates the translated regex compiles, so matching cannot panic, and
the model mirrors the source exactly. -/
def WfTemplate (tpl : String) : Prop :=
  ∃ ps, PiecesWf ps ∧ tpl.data = renderPieces ps

/-! ## Auxiliary definitions for the proofs -/

/-- Concrete OpenAPI document with a single `GET /s` operation whose 200
response carries the example `{"a": 1}`. -/
def exampleDocC7 : SpecDoc :=
  ⟨[("/s", .item ⟨some ⟨[(200, .item ⟨[("application/json", ⟨some (Json.obj [("a", Json.num 1)])⟩)]⟩)]⟩,
      none, none, none, none⟩)]⟩

/-- The server state after `DELETE /__mock/endpoints {GET /s}` against a
state holding only the spec: the key lands in the removed-spec set. -/
def removedStateC7 : AppState :=
  (remove_endpoint ⟨[], [], some exampleDocC7, some (Json.obj []), []⟩ "GET" "/s").1

/-- The value of the last binding of a key in an association list; with
replace-on-insert folds, the last insertion wins. -/
def lookupLast {β : Type} : List ((String × String) × β) → (String × String) → Option β
  | [], _ => none
  | kv :: rest, k =>
      match lookupLast rest k with
      | some v => some v
      | none => if kv.1 = k then some kv.2 else none

/-- The spec's "Import preferred status" scenario document: POST
`/api/users` defines responses 200 and 201; GET defines only 200. -/
def importDocC5 : SpecDoc :=
  ⟨[("/api/users", .item
      ⟨some ⟨[(200, .item ⟨[("application/json", ⟨some (Json.obj [("who", Json.str "get")])⟩)]⟩)]⟩,
       some ⟨[(200, .item ⟨[("application/json", ⟨some (Json.obj [("who", Json.str "created")])⟩)]⟩),
              (201, .item ⟨[("application/json", ⟨some (Json.obj [("id", Json.num 1)])⟩)]⟩)]⟩,
       none, none, none⟩)]⟩

/-- The pattern a well-formed template expands to, piece by piece. -/
def patOfPieces : List TPiece → List Char
  | [] => []
  | .lit c :: ps => c :: patOfPieces ps
  | .hole n :: ps =>
      '(' :: '?' :: 'P' :: '<' ::
        (n ++ '>' :: '[' :: '^' :: '/' :: ']' :: '+' :: ')' :: patOfPieces ps)

/-- Association lookup on the export accumulator. -/
def pathLookup : List (String × PathItem) → String → Option PathItem
  | [], _ => none
  | (q, it) :: rest, p => if q = p then some it else pathLookup rest p

/-- The operation stored in the accumulator for (path, method). -/
def opAt (acc : List (String × PathItem)) (p M : String) : Option Operation :=
  match pathLookup acc p with
  | some it => opFor it M
  | none => none

/-- The one-endpoint store `GET /x ↦ {status 404, body {"a": 1}}` used
to refute the unrestricted round-trip law. -/
def storeC6 : List ((String × String) × LibEndpoint) :=
  [(("GET", "/x"), ⟨Json.obj [("a", Json.num 1)], 404, none, none⟩)]

/-! ## Store lemmas -/

theorem lookupKey_eraseKey_ne {β : Type} (s : List ((String × String) × β))
    (k q : String × String) (h : k ≠ q) :
    lookupKey (eraseKey s q) k = lookupKey s k := by
  induction s with
  | nil => rfl
  | cons kv rest ih =>
      obtain ⟨kk, vv⟩ := kv
      by_cases hk : kk = q
      · subst hk
        simp [eraseKey, lookupKey, Ne.symm h, ih]
      · by_cases hq : kk = k
        · subst hq
          simp [eraseKey, lookupKey, hk]
        · simp [eraseKey, lookupKey, hk, hq, ih]

theorem lookupKey_insertKey_self {β : Type} (s : List ((String × String) × β))
    (k : String × String) (v : β) :
    lookupKey (insertKey s k v) k = some v := by
  simp [insertKey, lookupKey]

theorem lookupKey_insertKey_ne {β : Type} (s : List ((String × String) × β))
    (k q : String × String) (v : β) (h : q ≠ k) :
    lookupKey (insertKey s k v) q = lookupKey s q := by
  simp [insertKey, lookupKey, Ne.symm h, lookupKey_eraseKey_ne s q k h]

theorem lookupKey_some_mem {β : Type} {s : List ((String × String) × β)}
    {k : String × String} {v : β} (h : lookupKey s k = some v) : (k, v) ∈ s := by
  induction s with
  | nil => exact absurd h (by simp [lookupKey])
  | cons kv rest ih =>
      obtain ⟨kk, vv⟩ := kv
      by_cases hk : kk = k
      · subst hk
        simp [lookupKey] at h
        subst h
        exact List.mem_cons_self _ _
      · simp [lookupKey, hk] at h
        exact List.mem_cons_of_mem _ (ih h)

theorem lookupKey_none_all_ne {β : Type} {s : List ((String × String) × β)}
    {k : String × String} (h : lookupKey s k = none) : ∀ kv ∈ s, kv.1 ≠ k := by
  induction s with
  | nil => intro kv hkv; cases hkv
  | cons kv rest ih =>
      intro kv' hkv'
      by_cases hk : kv.1 = k
      · simp [lookupKey, hk] at h
      · simp [lookupKey, hk] at h
        rcases List.mem_cons.mp hkv' with rfl | hmem
        · exact hk
        · exact ih h kv' hmem

/-! ## Correctness of the modelled pattern compiler -/

theorem expandOpen_append (a b : List Char) :
    expandOpen (a ++ b) = expandOpen a ++ expandOpen b := by
  induction a with
  | nil => rfl
  | cons c a' ih => simp [expandOpen, ih]

theorem expandClose_append (a b : List Char) :
    expandClose (a ++ b) = expandClose a ++ expandClose b := by
  induction a with
  | nil => rfl
  | cons c a' ih => simp [expandClose, ih]

theorem metaChar_ne {c : Char} (h : metaChar c = false) : c ≠ '{' ∧ c ≠ '}' := by
  constructor <;> intro hc <;> subst hc <;> simp [metaChar] at h

theorem isNameChar_ne {c : Char} (h : isNameChar c = true) :
    c ≠ '{' ∧ c ≠ '}' ∧ c ≠ '>' := by
  refine ⟨?_, ?_, ?_⟩ <;> intro hc <;> subst hc <;> simp [isNameChar, Char.isAlphanum,
    Char.isAlpha, Char.isUpper, Char.isLower, Char.isDigit] at h

theorem expandOpen_no_open {l : List Char} (h : ∀ c ∈ l, c ≠ '{') :
    expandOpen l = l := by
  induction l with
  | nil => rfl
  | cons c l' ih =>
      simp [expandOpen, h c (List.mem_cons_self _ _),
        ih (fun c' hc' => h c' (List.mem_cons_of_mem _ hc'))]

theorem expandClose_no_close {l : List Char} (h : ∀ c ∈ l, c ≠ '}') :
    expandClose l = l := by
  induction l with
  | nil => rfl
  | cons c l' ih =>
      simp [expandClose, h c (List.mem_cons_self _ _),
        ih (fun c' hc' => h c' (List.mem_cons_of_mem _ hc'))]

theorem expand_renderPieces (ps : List TPiece) (h : ∀ p ∈ ps, pieceOk p) :
    expandClose (expandOpen (renderPieces ps)) = patOfPieces ps := by
  induction ps with
  | nil => rfl
  | cons p ps' ih =>
      have hp := h p (List.mem_cons_self _ _)
      have hps' := fun q hq => h q (List.mem_cons_of_mem _ hq)
      cases p with
      | lit c =>
          obtain ⟨hc1, hc2⟩ := metaChar_ne hp
          simp [renderPieces, expandOpen, expandClose, hc1, hc2, patOfPieces, ih hps']
      | hole n =>
          obtain ⟨hne, hname, hstart⟩ := hp
          have hn1 : ∀ c ∈ n, c ≠ '{' := fun c hc => (isNameChar_ne (hname c hc)).1
          have hn2 : ∀ c ∈ n, c ≠ '}' := fun c hc => (isNameChar_ne (hname c hc)).2.1
          simp [renderPieces, expandOpen, expandOpen_append, expandOpen_no_open hn1,
            expandClose, expandClose_append, expandClose_no_close hn2,
            patOfPieces, ih hps']

theorem metaChar_false_ne {c : Char} (h : metaChar c = false) :
    c ≠ '(' ∧ c ≠ '[' ∧ c ≠ '.' := by
  refine ⟨?_, ?_, ?_⟩ <;> intro hc <;> subst hc <;> simp [metaChar] at h

theorem compileGroup_name (n rest : List Char) :
    ∀ (seen : List (List Char)) (acc : List Char),
      (∀ c ∈ n, isNameChar c = true) →
      (acc = [] → ∀ c ∈ n.take 1, isNameStartChar c = true) →
      compileGroup (n ++ '>' :: '[' :: '^' :: '/' :: ']' :: '+' :: ')' :: rest) seen acc =
        if acc ++ n = [] ∨ acc ++ n ∈ seen then none
        else (compilePat rest ((acc ++ n) :: seen)).map (RTok.nsp :: ·) := by
  induction n with
  | nil =>
      intro seen acc _ _
      simp only [List.nil_append, List.append_nil]
      rfl
  | cons c n' ih =>
      intro seen acc hn hstart
      have hc : isNameChar c = true := hn c (List.mem_cons_self _ _)
      have hcne : c ≠ '>' := (isNameChar_ne hc).2.2
      have hcond : (if acc.isEmpty then isNameStartChar c else isNameChar c) = true := by
        cases acc with
        | nil => simpa using hstart rfl c (by simp)
        | cons a as => simpa using hc
      rw [List.cons_append, compileGroup, if_neg hcne, if_pos hcond]
      rw [ih seen (acc ++ [c]) (fun c' hc' => hn c' (List.mem_cons_of_mem _ hc'))
        (fun h => absurd h (by simp))]
      simp [List.append_assoc]

theorem compilePat_patOfPieces (ps : List TPiece) :
    ∀ seen : List (List Char), (∀ p ∈ ps, pieceOk p) → (holeNames ps).Nodup →
      (∀ m ∈ holeNames ps, m ∉ seen) →
      compilePat (patOfPieces ps) seen = some (toksOfPieces ps) := by
  induction ps with
  | nil => intro seen _ _ _; rfl
  | cons p ps' ih =>
      intro seen h hnd hdisj
      have hp := h p (List.mem_cons_self _ _)
      have hps' := fun q hq => h q (List.mem_cons_of_mem _ hq)
      cases p with
      | lit c =>
          have hmeta : metaChar c = false := hp
          obtain ⟨h1, h2, h3⟩ := metaChar_false_ne hmeta
          rw [patOfPieces, compilePat, if_neg h1, if_neg h2, if_neg h3,
            if_neg (by rw [hmeta]; exact Bool.false_ne_true),
            ih seen hps' (by simpa [holeNames] using hnd)
              (fun m hm => hdisj m (by simpa [holeNames] using hm)),
            toksOfPieces]
          rfl
      | hole n =>
          obtain ⟨hne, hname, hstart⟩ := hp
          have hnd2 : n ∉ holeNames ps' ∧ (holeNames ps').Nodup := by
            simpa [holeNames, List.nodup_cons] using hnd
          have hnseen : n ∉ seen := hdisj n (by simp [holeNames])
          have hdisj' : ∀ m ∈ holeNames ps', m ∉ n :: seen := by
            intro m hm
            simp only [List.mem_cons, not_or]
            exact ⟨fun he => hnd2.1 (he ▸ hm), hdisj m (by simp [holeNames, hm])⟩
          rw [patOfPieces]
          rw [show compilePat ('(' :: '?' :: 'P' :: '<' ::
              (n ++ '>' :: '[' :: '^' :: '/' :: ']' :: '+' :: ')' :: patOfPieces ps')) seen =
              compileGroup (n ++ '>' :: '[' :: '^' :: '/' :: ']' :: '+' :: ')' :: patOfPieces ps')
                seen []
            from rfl]
          rw [compileGroup_name n _ seen [] hname (fun _ => hstart)]
          simp only [List.nil_append]
          rw [if_neg (not_or.mpr ⟨hne, hnseen⟩), ih (n :: seen) hps' hnd2.2 hdisj', toksOfPieces]
          rfl

theorem matchesTemplate_renderPieces (ps : List TPiece) (path : List Char)
    (h : PiecesWf ps) :
    matchesTemplate (renderPieces ps) path = some (rmatch (toksOfPieces ps) path) := by
  rw [matchesTemplate, expand_renderPieces ps h.1,
    compilePat_patOfPieces ps [] h.1 h.2 (fun m _ => List.not_mem_nil m), Option.map_some']

/-! ## Claim C10 -/

/-- Claim C10: if the `OPENAPI_FILE` loading chain fails at any stage
(missing variable, unreadable file, invalid JSON, or JSON that is not an
OpenAPI document), startup still builds a server state — `startup_state`
is total, the error is swallowed — whose parsed spec is `none`, and
every dispatched request is handled exactly as with no spec configured:
with the initial empty store it gets a 404 and one trace entry. -/
theorem claim_C10_bad_spec_swallowed (envVar : Option String)
    (readFile : String → Option String) (parseJson : String → Option Json)
    (parseOpenApi : Json → Option SpecDoc)
    (h : (load_raw_spec envVar readFile parseJson).bind parseOpenApi = none) :
    (startup_state envVar readFile parseJson parseOpenApi).spec = none ∧
    ∀ req t, dispatch (startup_state envVar readFile parseJson parseOpenApi) req t =
      some (⟨404, none⟩,
        { startup_state envVar readFile parseJson parseOpenApi with
          logs := [⟨toUpperStr req.method, req.path, req.headers, req.query, req.body, t, 404⟩] }) := by
  constructor
  · simpa [startup_state] using h
  · intro req t
    simp [dispatch, startup_state, lookupKey, h]

/-- Witness for C10 at a concrete failing load: the file read fails. -/
theorem claim_C10_bad_spec_swallowed_witness :
    (startup_state (some "openapi.json") (fun _ => none) (fun _ => none) (fun _ => none)).spec = none ∧
    dispatch (startup_state (some "openapi.json") (fun _ => none) (fun _ => none) (fun _ => none))
        ⟨"GET", "/anything", [], "", none⟩ "2024-01-01T00:00:00+00:00" =
      some (⟨404, none⟩,
        { startup_state (some "openapi.json") (fun _ => none) (fun _ => none) (fun _ => none) with
          logs := [⟨toUpperStr "GET", "/anything", [], "", none, "2024-01-01T00:00:00+00:00", 404⟩] }) := by
  have h := claim_C10_bad_spec_swallowed (some "openapi.json")
    (fun _ => none) (fun _ => none) (fun _ => none) rfl
  exact ⟨h.1, h.2 ⟨"GET", "/anything", [], "", none⟩ "2024-01-01T00:00:00+00:00"⟩

/-! ## Claim C2 -/

theorem get_operation_isSome (paths : List (String × ItemOrRef)) (m p : String)
    (h : ∀ ti ∈ paths, ∀ item, ti.2 = ItemOrRef.item item → WfTemplate ti.1) :
    (get_operation paths m p).isSome := by
  induction paths with
  | nil => simp [get_operation]
  | cons ti rest ih =>
      obtain ⟨tpl, it⟩ := ti
      have hrest : ∀ ti ∈ rest, ∀ item, ti.2 = ItemOrRef.item item → WfTemplate ti.1 :=
        fun ti hti => h ti (List.mem_cons_of_mem _ hti)
      cases it with
      | ref r => simpa [get_operation] using ih hrest
      | item item =>
          obtain ⟨qs, hwf, hrender⟩ :=
            h (tpl, .item item) (List.mem_cons_self _ _) item rfl
          have hmt : matchesTemplate tpl.data p.data =
              some (rmatch (toksOfPieces qs) p.data) := by
            rw [hrender]; exact matchesTemplate_renderPieces qs p.data hwf
          by_cases hm : rmatch (toksOfPieces qs) p.data = true
          · cases hop : opFor item m with
            | some op => simp [get_operation, hmt, hm, hop]
            | none => simpa [get_operation, hmt, hm, hop] using ih hrest
          · simpa [get_operation, hmt, hm] using ih hrest

/-- Claim C2 (amended): for every non-management request, provided every
stored endpoint's status lies in the valid HTTP range `[100, 999]` and
every (non-`$ref`) spec path template is well formed — regex-safe
literal characters and valid, pairwise distinct `{name}` placeholder
names, so its translated regex compiles — the dispatcher produces a
response and appends exactly one trace entry — after the response status
is decided, the entry carrying exactly that status — leaving the rest of
the state unchanged. The claim as stated is false because the management
add performs no range check: a stored status outside `[100, 999]` makes
`StatusCode::from_u16(..).unwrap()` panic, producing no response and no
trace entry (see the counterexample). -/
theorem claim_C2_dispatch_total_one_trace (st : AppState) (req : HttpReq) (t : String)
    (hstatus : ∀ kv ∈ st.dynamic, 100 ≤ kv.2.status ∧ kv.2.status ≤ 999)
    (hspec : ∀ doc, st.spec = some doc →
      ∀ ti ∈ doc.paths, ∀ item, ti.2 = ItemOrRef.item item → WfTemplate ti.1) :
    ∃ r st', dispatch st req t = some (r, st') ∧
      st'.logs = st.logs ++
        [⟨toUpperStr req.method, req.path, req.headers, req.query, req.body, t, r.status⟩] ∧
      st'.dynamic = st.dynamic ∧ st'.removed_spec = st.removed_spec ∧
      st'.spec = st.spec ∧ st'.raw_spec = st.raw_spec := by
  cases hl : lookupKey st.dynamic (toUpperStr req.method, req.path) with
  | some ep =>
      obtain ⟨h1, h2⟩ := hstatus _ (lookupKey_some_mem hl)
      refine ⟨⟨ep.status, some ep.response⟩,
        { st with logs := st.logs ++
            [⟨toUpperStr req.method, req.path, req.headers, req.query, req.body, t, ep.status⟩] },
        ?_, rfl, rfl, rfl, rfl, rfl⟩
      simp [dispatch, hl, statusCodeFromU16, h1, h2]
  | none =>
      cases hsp : st.spec with
      | none =>
          refine ⟨⟨404, none⟩,
            { st with logs := st.logs ++
                [⟨toUpperStr req.method, req.path, req.headers, req.query, req.body, t, 404⟩] },
            ?_, rfl, rfl, rfl, hsp, rfl⟩
          simp [dispatch, hl, hsp]
      | some doc =>
          obtain ⟨opO, hop⟩ := Option.isSome_iff_exists.mp
            (get_operation_isSome doc.paths (toUpperStr req.method) req.path (hspec doc hsp))
          cases opO with
          | none =>
              refine ⟨⟨404, none⟩,
                { st with logs := st.logs ++
                    [⟨toUpperStr req.method, req.path, req.headers, req.query, req.body, t, 404⟩] },
                ?_, rfl, rfl, rfl, hsp, rfl⟩
              simp [dispatch, hl, hsp, hop]
          | some op =>
              cases hex : extract_example_response op with
              | some ex =>
                  refine ⟨⟨200, some ex⟩,
                    { st with logs := st.logs ++
                        [⟨toUpperStr req.method, req.path, req.headers, req.query, req.body, t, 200⟩] },
                    ?_, rfl, rfl, rfl, hsp, rfl⟩
                  simp [dispatch, hl, hsp, hop, hex]
              | none =>
                  refine ⟨⟨200, none⟩,
                    { st with logs := st.logs ++
                        [⟨toUpperStr req.method, req.path, req.headers, req.query, req.body, t, 200⟩] },
                    ?_, rfl, rfl, rfl, hsp, rfl⟩
                  simp [dispatch, hl, hsp, hop, hex]

/-- Claim C2 counterexample: `add_endpoint` accepts a status of 99
without any range check, and the subsequent matching request makes
`dispatch` panic (modelled as `none`): no response is produced and no
trace entry is appended, falsifying "the dispatcher never fails". -/
theorem claim_C2_counterexample :
    (add_endpoint ⟨[], [], none, none, []⟩
        ⟨"GET", "/x", Json.obj [("a", Json.num 1)], some 99, none⟩).dynamic =
      [(("GET", "/x"), ⟨Json.obj [("a", Json.num 1)], 99, none⟩)] ∧
    dispatch (add_endpoint ⟨[], [], none, none, []⟩
        ⟨"GET", "/x", Json.obj [("a", Json.num 1)], some 99, none⟩)
      ⟨"GET", "/x", [], "", none⟩ "2024-01-01T00:00:00+00:00" = none :=
  ⟨rfl, rfl⟩

/-- Witness for the amended C2 at a concrete state: one endpoint with
status 200 and no spec; dispatch answers and appends the one entry. -/
theorem claim_C2_dispatch_total_one_trace_witness :
    ∃ r st', dispatch ⟨[(("GET", "/ok"), ⟨Json.obj [("m", Json.str "hi")], 200, none⟩)],
        [], none, none, []⟩ ⟨"GET", "/ok", [], "", none⟩ "ts" = some (r, st') ∧
      st'.logs = [] ++ [⟨toUpperStr "GET", "/ok", [], "", none, "ts", r.status⟩] ∧
      st'.dynamic = [(("GET", "/ok"), ⟨Json.obj [("m", Json.str "hi")], 200, none⟩)] ∧
      st'.removed_spec = [] ∧ st'.spec = none ∧ st'.raw_spec = none :=
  claim_C2_dispatch_total_one_trace
    ⟨[(("GET", "/ok"), ⟨Json.obj [("m", Json.str "hi")], 200, none⟩)], [], none, none, []⟩
    ⟨"GET", "/ok", [], "", none⟩ "ts"
    (by intro kv hkv; rcases List.mem_singleton.mp hkv with rfl; exact ⟨by norm_num, by norm_num⟩)
    (by intro doc h; exact Option.noConfusion h)

/-! ## Claim C7 -/

theorem specEntriesForPath_not_removed (raw : Json) (removed : List (String × String))
    (tpl : String) (item : PathItem) :
    ∀ e ∈ specEntriesForPath raw removed tpl item, e.isSpec = true ∧ e.key ∉ removed := by
  intro e he
  obtain ⟨mo, _hmo, hf⟩ := List.mem_filterMap.mp he
  cases hmop : mo.2 with
  | none => simp [hmop] at hf
  | some op =>
      by_cases hr : (mo.1, tpl) ∈ removed
      · simp [hmop, hr] at hf
      · simp [hmop, hr] at hf
        subst hf
        exact ⟨rfl, hr⟩

theorem get_config_entry_shape (st : AppState) :
    ∀ e ∈ get_config st,
      (e.isSpec = true ∧ e.key ∉ st.removed_spec) ∨
      (e.isSpec = false ∧ ∃ kv ∈ st.dynamic, e.key = kv.1) := by
  intro e he
  rcases List.mem_append.mp he with hs | hd
  · left
    revert hs
    cases st.spec with
    | none => intro hs; cases hs
    | some doc =>
        cases st.raw_spec with
        | none => intro hs; cases hs
        | some raw =>
            show e ∈ specConfigEntries raw st.removed_spec doc.paths → _
            generalize doc.paths = pl
            induction pl with
            | nil => intro hs; cases hs
            | cons ti rest ih =>
                obtain ⟨tpl, it⟩ := ti
                cases it with
                | ref r =>
                    intro hs
                    rw [specConfigEntries] at hs
                    exact ih hs
                | item item =>
                    intro hs
                    rw [specConfigEntries] at hs
                    rcases List.mem_append.mp hs with h1 | h2
                    · exact specEntriesForPath_not_removed raw st.removed_spec tpl item e h1
                    · exact ih h2
  · right
    obtain ⟨kv, hkv, he'⟩ := List.mem_map.mp hd
    subst he'
    exact ⟨rfl, kv, hkv, rfl⟩

/-- Claim C7 (amended): a (method, template) key recorded in the
removed-spec set and absent from the dynamic store is suppressed from
the `GET /__mock/config` enumeration — no emitted entry carries that
key — but dispatch does not consult the removed-spec set: a request
matching the template with that method is still answered with status
200 from the OpenAPI example. The claim's second half ("is not answered
from the OpenAPI example") is false on the code, see the
counterexample. -/
theorem claim_C7_removed_suppressed_config_only (st : AppState) (doc : SpecDoc)
    (M tpl : String) (req : HttpReq) (t : String) (op : Operation) (ex : Json)
    (hrem : (M, tpl) ∈ st.removed_spec)
    (habsent : lookupKey st.dynamic (M, tpl) = none)
    (hm : toUpperStr req.method = M)
    (hexact : lookupKey st.dynamic (M, req.path) = none)
    (hsp : st.spec = some doc)
    (hop : get_operation doc.paths M req.path = some (some op))
    (hex : extract_example_response op = some ex) :
    (∀ e ∈ get_config st, e.key ≠ (M, tpl)) ∧
    dispatch st req t = some (⟨200, some ex⟩,
      { st with logs := st.logs ++ [⟨M, req.path, req.headers, req.query, req.body, t, 200⟩] }) := by
  constructor
  · intro e he
    rcases get_config_entry_shape st e he with ⟨_, hnr⟩ | ⟨_, kv, hkv, hk⟩
    · intro hkey; exact hnr (hkey ▸ hrem)
    · intro hkey
      exact lookupKey_none_all_ne habsent kv hkv (by rw [← hk, hkey])
  · simp [dispatch, hm, hexact, hsp, hop, hex]

/-- Claim C7 counterexample: deleting the spec-only key `GET /s` records
it in the removed-spec set (reply `true`) and suppresses it from the
config enumeration, yet dispatching `GET /s` is still answered with the
OpenAPI example `{"a": 1}` — the claim's "not answered from the OpenAPI
example" is false. -/
theorem claim_C7_counterexample :
    (remove_endpoint ⟨[], [], some exampleDocC7, some (Json.obj []), []⟩ "GET" "/s").2 = true ∧
    removedStateC7.removed_spec = [("GET", "/s")] ∧
    get_config removedStateC7 = [] ∧
    dispatch removedStateC7 ⟨"GET", "/s", [], "", none⟩ "ts" =
      some (⟨200, some (Json.obj [("a", Json.num 1)])⟩,
        { removedStateC7 with
          logs := [⟨toUpperStr "GET", "/s", [], "", none, "ts", 200⟩] }) :=
  ⟨rfl, rfl, rfl, rfl⟩

/-- Witness for the amended C7 at the concrete removed state. -/
theorem claim_C7_removed_suppressed_config_only_witness :
    (∀ e ∈ get_config removedStateC7, e.key ≠ ("GET", "/s")) ∧
    dispatch removedStateC7 ⟨"GET", "/s", [], "", none⟩ "ts" =
      some (⟨200, some (Json.obj [("a", Json.num 1)])⟩,
        { removedStateC7 with
          logs := removedStateC7.logs ++ [⟨"GET", "/s", [], "", none, "ts", 200⟩] }) :=
  claim_C7_removed_suppressed_config_only removedStateC7 exampleDocC7 "GET" "/s"
    ⟨"GET", "/s", [], "", none⟩ "ts"
    ⟨[(200, .item ⟨[("application/json", ⟨some (Json.obj [("a", Json.num 1)])⟩)]⟩)]⟩
    (Json.obj [("a", Json.num 1)])
    (List.mem_singleton.mpr rfl) rfl rfl rfl rfl rfl rfl

/-! ## Claim C1 -/

theorem find?_unique {α : Type} {p : α → Bool} {l : List α} {a : α}
    (hmem : a ∈ l) (ha : p a = true) (huniq : ∀ x ∈ l, p x = true → x = a) :
    l.find? p = some a := by
  induction l with
  | nil => cases hmem
  | cons x rest ih =>
      by_cases hx : p x = true
      · rw [List.find?_cons_of_pos _ hx, huniq x (List.mem_cons_self _ _) hx]
      · rw [List.find?_cons_of_neg _ hx]
        rcases List.mem_cons.mp hmem with rfl | hmem'
        · exact absurd ha hx
        · exact ih hmem' (fun y hy => huniq y (List.mem_cons_of_mem _ hy))

/-- Claim C1: a dynamic endpoint registered under a path template with
`{name}` placeholders answers, via step 2 of the cascade (template
dynamic match), any request whose method equals the endpoint's and whose
concrete path matches the template but has no exact dynamic match: the
response is the endpoint's canned response with its stored status,
rather than falling through to the OpenAPI/404 branches. The endpoint is
assumed to be the only matching entry (with several matching templates
the store's iteration order picks one of them). -/
theorem claim_C1_template_dynamic_match (st : LibState) (M P tpl : String) (ep : LibEndpoint)
    (hex : lookupKey st.dynamic (M, P) = none)
    (hmem : ((M, tpl), ep) ∈ st.dynamic)
    (_hhole : '{' ∈ tpl.data)
    (hmatch : libMatches tpl P = true)
    (huniq : ∀ kv ∈ st.dynamic, kv.1.1 = M → libMatches kv.1.2 P = true → kv = ((M, tpl), ep))
    (hproxy : ep.proxyUrl = none) :
    lib_dispatch st M P = .canned (M, tpl) ep.status ep.response
      (ep.headers.getD [] ++ [("content-type", "application/json")]) := by
  have hfind : st.dynamic.find? (fun kv => kv.1.1 = M && libMatches kv.1.2 P) =
      some ((M, tpl), ep) :=
    find?_unique hmem (by simp [hmatch]) (by
      intro kv hkv hp
      simp only [Bool.and_eq_true, decide_eq_true_eq] at hp
      exact huniq kv hkv hp.1 hp.2)
  simp [lib_dispatch, matchDynamic, hex, hfind, hproxy]

/-- Witness for C1: after registering `GET /users/{user_id}` with body
`{"id": 123}` and status 200, a dispatched `GET /users/42` (no exact
match) is answered 200 with that body from the template match. -/
theorem claim_C1_template_dynamic_match_witness :
    lib_dispatch ⟨[(("GET", "/users/{user_id}"),
        ⟨Json.obj [("id", Json.num 123)], 200, none, none⟩)], [], none, none⟩
      "GET" "/users/42" =
    .canned ("GET", "/users/{user_id}") 200 (Json.obj [("id", Json.num 123)])
      [("content-type", "application/json")] :=
  claim_C1_template_dynamic_match
    ⟨[(("GET", "/users/{user_id}"), ⟨Json.obj [("id", Json.num 123)], 200, none, none⟩)],
      [], none, none⟩
    "GET" "/users/42" "/users/{user_id}"
    ⟨Json.obj [("id", Json.num 123)], 200, none, none⟩
    rfl (List.mem_singleton.mpr rfl) (by decide) (by decide)
    (fun kv hkv _ _ => List.mem_singleton.mp hkv) rfl

/-! ## Claim C4 -/

/-- Claim C4: when the cascade's dynamic match (exact or template) finds
an endpoint without a proxy URL, the dispatched response carries the
stored status, the stored JSON body, the endpoint's stored custom
headers, and `content-type: application/json` inserted after them. -/
theorem claim_C4_canned_response (st : LibState) (M P : String)
    (key : String × String) (ep : LibEndpoint)
    (hmatch : matchDynamic st.dynamic M P = some (key, ep))
    (hproxy : ep.proxyUrl = none) :
    lib_dispatch st M P = .canned key ep.status ep.response
      (ep.headers.getD [] ++ [("content-type", "application/json")]) := by
  simp [lib_dispatch, hmatch, hproxy]

/-- Witness for C4, the spec's "Add + call" scenario: after adding
`GET /hello` with body `{"message": "Hello World"}` and status 200, a
dispatched `GET /hello` is answered 200 with that body and
`content-type: application/json`. -/
theorem claim_C4_canned_response_witness :
    lib_dispatch ⟨(lib_add_endpoint []
        ⟨"GET", "/hello", Json.obj [("message", Json.str "Hello World")], some 200, none, none⟩).2,
      [], none, none⟩ "GET" "/hello" =
    .canned ("GET", "/hello") 200 (Json.obj [("message", Json.str "Hello World")])
      [("content-type", "application/json")] :=
  claim_C4_canned_response
    ⟨(lib_add_endpoint []
        ⟨"GET", "/hello", Json.obj [("message", Json.str "Hello World")], some 200, none, none⟩).2,
      [], none, none⟩
    "GET" "/hello" ("GET", "/hello")
    ⟨Json.obj [("message", Json.str "Hello World")], 200, none, none⟩
    rfl rfl

/-! ## Claim C8 -/

/-- Claim C8: the management add normalizes the method to upper case (so
`"get"` and `"GET"` address the same store key), rejects methods whose
normalization is outside {GET, POST, PUT, PATCH, DELETE} with 400
leaving the store unchanged, defaults an omitted status to 200, and
replaces any existing endpoint under the same key. -/
theorem claim_C8_add_validates_method :
    (∀ store cfg, toUpperStr cfg.method ∉ allowedMethods →
        lib_add_endpoint store cfg = (400, store)) ∧
    (∀ store cfg, toUpperStr cfg.method ∈ allowedMethods →
        lib_add_endpoint store cfg =
          (200, insertKey store (toUpperStr cfg.method, cfg.path)
            ⟨cfg.response, cfg.status.getD 200, cfg.headers, cfg.proxy_url⟩)) ∧
    (∀ store path response status headers proxy,
        lib_add_endpoint store ⟨"get", path, response, status, headers, proxy⟩ =
        lib_add_endpoint store ⟨"GET", path, response, status, headers, proxy⟩) ∧
    (∀ store k (v : LibEndpoint), lookupKey (insertKey store k v) k = some v) := by
  refine ⟨?_, ?_, ?_, ?_⟩
  · intro store cfg h
    simp [lib_add_endpoint, h]
  · intro store cfg h
    simp [lib_add_endpoint, h]
  · intro store path response status headers proxy
    rfl
  · intro store k v
    exact lookupKey_insertKey_self store k v

/-- Witness for C8: a concrete rejected add (`FOO`, store unchanged), a
lower-case add landing under the upper-cased key with the defaulted
status, and the replacement lookup. -/
theorem claim_C8_add_validates_method_witness :
    lib_add_endpoint [] ⟨"FOO", "/p", Json.null, none, none, none⟩ = (400, []) ∧
    lib_add_endpoint [] ⟨"get", "/p", Json.null, none, none, none⟩ =
      (200, insertKey [] ("GET", "/p") ⟨Json.null, 200, none, none⟩) ∧
    lookupKey (insertKey [] ("GET", "/p") (⟨Json.null, 200, none, none⟩ : LibEndpoint))
      ("GET", "/p") = some ⟨Json.null, 200, none, none⟩ :=
  ⟨claim_C8_add_validates_method.1 [] ⟨"FOO", "/p", Json.null, none, none, none⟩ (by decide),
   claim_C8_add_validates_method.2.1 [] ⟨"get", "/p", Json.null, none, none, none⟩ (by decide),
   claim_C8_add_validates_method.2.2.2 [] ("GET", "/p") ⟨Json.null, 200, none, none⟩⟩

/-! ## Claim C5 -/

theorem foldl_insertKey_lookup {β : Type} (l : List ((String × String) × β))
    (s : List ((String × String) × β)) (k : String × String) :
    lookupKey (l.foldl (fun s kv => insertKey s kv.1 kv.2) s) k =
      match lookupLast l k with
      | some v => some v
      | none => lookupKey s k := by
  induction l generalizing s with
  | nil => simp [lookupLast]
  | cons kv rest ih =>
      rw [List.foldl_cons, ih]
      cases hrest : lookupLast rest k with
      | some v => simp [lookupLast, hrest]
      | none =>
          by_cases hk : kv.1 = k
          · subst hk
            simp [lookupLast, hrest, lookupKey_insertKey_self]
          · simp [lookupLast, hrest, hk, lookupKey_insertKey_ne s kv.1 k kv.2 (Ne.symm hk)]

theorem lookupLast_append {β : Type} (a b : List ((String × String) × β)) (k : String × String) :
    lookupLast (a ++ b) k =
      match lookupLast b k with
      | some v => some v
      | none => lookupLast a k := by
  induction a with
  | nil => simp [lookupLast]; cases lookupLast b k <;> rfl
  | cons kv a' ih =>
      rw [List.cons_append, lookupLast, ih, lookupLast]
      cases lookupLast b k <;> cases lookupLast a' k <;> simp

theorem lookupLast_eq_none {β : Type} {l : List ((String × String) × β)} {k : String × String}
    (h : ∀ kv ∈ l, kv.1 ≠ k) : lookupLast l k = none := by
  induction l with
  | nil => rfl
  | cons kv rest ih =>
      rw [lookupLast, ih (fun kv' hkv' => h kv' (List.mem_cons_of_mem _ hkv'))]
      simp [h kv (List.mem_cons_self _ _)]

theorem opFor_some_mem {item : PathItem} {M : String} {op : Operation}
    (h : opFor item M = some op) : M ∈ allowedMethods := by
  unfold opFor at h
  split at h <;> simp_all [allowedMethods]

theorem importOps_keys (p : String) (item : PathItem) :
    ∀ kv ∈ importOps p item, kv.1.2 = p ∧ kv.1.1 ∈ allowedMethods := by
  intro kv hkv
  obtain ⟨mo, hmo, hf⟩ := List.mem_filterMap.mp hkv
  cases hmop : mo.2 with
  | none => simp [hmop] at hf
  | some op =>
      simp [hmop] at hf
      subst hf
      refine ⟨rfl, ?_⟩
      simp only [methodOps, List.mem_cons, List.mem_singleton, List.not_mem_nil, or_false] at hmo
      rcases hmo with rfl | rfl | rfl | rfl | rfl <;> simp [allowedMethods]

theorem lookupLast_importOps (p : String) (item : PathItem) (M : String)
    (hM : M ∈ allowedMethods) :
    lookupLast (importOps p item) (M, p) = (opFor item M).map endpointOfOp := by
  obtain ⟨g, po, pu, pa, de⟩ := item
  simp only [allowedMethods, List.mem_cons, List.mem_singleton, List.not_mem_nil, or_false] at hM
  rcases hM with rfl | rfl | rfl | rfl | rfl
  · cases g <;> cases po <;> cases pu <;> cases pa <;> cases de <;>
      simp [importOps, methodOps, lookupLast, opFor]
  · cases g <;> cases po <;> cases pu <;> cases pa <;> cases de <;>
      simp [importOps, methodOps, lookupLast, opFor]
  · cases g <;> cases po <;> cases pu <;> cases pa <;> cases de <;>
      simp [importOps, methodOps, lookupLast, opFor]
  · cases g <;> cases po <;> cases pu <;> cases pa <;> cases de <;>
      simp [importOps, methodOps, lookupLast, opFor]
  · cases g <;> cases po <;> cases pu <;> cases pa <;> cases de <;>
      simp [importOps, methodOps, lookupLast, opFor]

theorem importEntries_paths (pl : List (String × ItemOrRef)) :
    ∀ kv ∈ importEntries pl, kv.1.2 ∈ pl.map Prod.fst := by
  induction pl with
  | nil => intro kv hkv; cases hkv
  | cons ti rest ih =>
      obtain ⟨p', it'⟩ := ti
      cases it' with
      | ref r =>
          intro kv hkv
          rw [importEntries] at hkv
          exact List.mem_cons_of_mem _ (ih kv hkv)
      | item item =>
          intro kv hkv
          rw [importEntries] at hkv
          rcases List.mem_append.mp hkv with h1 | h2
          · exact (importOps_keys p' item kv h1).1 ▸ List.mem_cons_self _ _
          · exact List.mem_cons_of_mem _ (ih kv h2)

theorem lookupLast_importEntries (pl : List (String × ItemOrRef)) (p : String)
    (item : PathItem) (M : String) (hM : M ∈ allowedMethods)
    (hnodup : (pl.map Prod.fst).Nodup)
    (hmem : (p, ItemOrRef.item item) ∈ pl) :
    lookupLast (importEntries pl) (M, p) = (opFor item M).map endpointOfOp := by
  induction pl with
  | nil => cases hmem
  | cons ti rest ih =>
      obtain ⟨p', it'⟩ := ti
      rcases List.mem_cons.mp hmem with heq | hmem'
      · obtain ⟨rfl, rfl⟩ := Prod.mk.injEq .. ▸ heq
        rw [importEntries, lookupLast_append]
        have hnone : lookupLast (importEntries rest) (M, p) = none := by
          apply lookupLast_eq_none
          intro kv hkv hk
          have hp := importEntries_paths rest kv hkv
          rw [hk] at hp
          exact (List.nodup_cons.mp hnodup).1 hp
        rw [hnone, lookupLast_importOps p item M hM]
      · have hp' : p' ≠ p := by
          intro hpp
          subst hpp
          exact (List.nodup_cons.mp hnodup).1
            (List.mem_map.mpr ⟨(p', .item item), hmem', rfl⟩)
        have ihr := ih (List.nodup_cons.mp hnodup).2 hmem'
        cases it' with
        | ref r => rw [importEntries]; exact ihr
        | item item' =>
            rw [importEntries, lookupLast_append, ihr]
            cases hop : opFor item M with
            | some op => simp
            | none =>
                simp only [Option.map_none']
                apply lookupLast_eq_none
                intro kv hkv hk
                have := (importOps_keys p' item' kv hkv).1
                rw [hk] at this
                exact hp' this.symm

/-- Claim C5: for every successful import and every (path, method)
operation in the imported document (whose path keys, coming from a JSON
object, are unique), the dynamic endpoint inserted under that key has
status equal to the first of 201, 204, 202, 200 present in the
operation's responses map (200 when none are present), and response
body `responses[preferredStatus].content["application/json"].example`
when present, `{"message": "OK"}` otherwise. -/
theorem claim_C5_import_preferred_status (doc : SpecDoc)
    (store : List ((String × String) × LibEndpoint))
    (p : String) (item : PathItem) (M : String) (op : Operation)
    (hnodup : (doc.paths.map Prod.fst).Nodup)
    (hmem : (p, ItemOrRef.item item) ∈ doc.paths)
    (hop : opFor item M = some op) :
    lookupKey (lib_import doc store) (M, p) =
      some ⟨(exampleAt op (importPreferredStatus op)).getD messageOK,
            importPreferredStatus op,
            some [("Content-Type", "application/json")], none⟩ := by
  rw [lib_import, foldl_insertKey_lookup,
    lookupLast_importEntries doc.paths p item M (opFor_some_mem hop) hnodup hmem, hop]
  rfl

/-- Witness for C5 on the spec's scenario: the POST (responses 200 and
201) imports with status 201 and the 201 example; the GET (only 200)
imports with status 200 and the 200 example. -/
theorem claim_C5_import_preferred_status_witness :
    lookupKey (lib_import importDocC5 []) ("POST", "/api/users") =
      some ⟨Json.obj [("id", Json.num 1)], 201, some [("Content-Type", "application/json")], none⟩ ∧
    lookupKey (lib_import importDocC5 []) ("GET", "/api/users") =
      some ⟨Json.obj [("who", Json.str "get")], 200, some [("Content-Type", "application/json")], none⟩ := by
  constructor
  · exact claim_C5_import_preferred_status importDocC5 [] "/api/users" _ "POST" _
      (by decide) (List.mem_singleton.mpr rfl) rfl
  · exact claim_C5_import_preferred_status importDocC5 [] "/api/users" _ "GET" _
      (by decide) (List.mem_singleton.mpr rfl) rfl

/-! ## Claims C3 and C9: the template matcher -/

theorem rmatch_nil_iff (cs : List Char) : rmatch [] cs = true ↔ cs = [] := by
  cases cs <;> simp [rmatch, rmatchAux]

theorem rmatch_lit_iff (c : Char) (ts : List RTok) (cs : List Char) :
    rmatch (.lit c :: ts) cs = true ↔ ∃ cs', cs = c :: cs' ∧ rmatch ts cs' = true := by
  cases cs with
  | nil => simp [rmatch, rmatchAux]
  | cons x xs =>
      simp only [rmatch, rmatchAux, Bool.and_eq_true, beq_iff_eq, List.cons.injEq]
      constructor
      · rintro ⟨rfl, hm⟩
        exact ⟨xs, ⟨rfl, rfl⟩, hm⟩
      · rintro ⟨cs', ⟨rfl, rfl⟩, hm⟩
        exact ⟨rfl, hm⟩

theorem rmatch_nsp_iff (ts : List RTok) (cs : List Char) :
    rmatch (.nsp :: ts) cs = true ↔
      ∃ s cs', cs = s ++ cs' ∧ s ≠ [] ∧ (∀ c ∈ s, c ≠ '/') ∧ rmatch ts cs' = true := by
  induction cs with
  | nil =>
      simp only [rmatch, rmatchAux, List.isEmpty_cons]
      constructor
      · intro h; cases h
      · rintro ⟨s, cs', heq, hne, -, -⟩
        exact absurd (List.append_eq_nil.mp heq.symm).1 hne
  | cons x xs ih =>
      simp only [rmatch, rmatchAux, Bool.and_eq_true, Bool.or_eq_true, decide_eq_true_eq]
      constructor
      · rintro ⟨hx, hm | hm⟩
        · exact ⟨[x], xs, rfl, by simp, by simpa using hx, hm⟩
        · obtain ⟨s, cs', heq, hne, hsl, hm'⟩ := (ih).mp hm
          exact ⟨x :: s, cs', by rw [heq]; rfl, by simp,
            by intro c hc; rcases List.mem_cons.mp hc with rfl | hc'; exact hx; exact hsl c hc', hm'⟩
      · rintro ⟨s, cs', heq, hne, hsl, hm⟩
        cases s with
        | nil => exact absurd rfl hne
        | cons sx s' =>
            rw [List.cons_append] at heq
            injection heq with h1 h2
            subst h1
            refine ⟨hsl x (List.mem_cons_self _ _), ?_⟩
            cases s' with
            | nil => left; rw [h2]; exact hm
            | cons sy s'' =>
                right
                refine ih.mpr ⟨sy :: s'', cs', h2, by simp, ?_, hm⟩
                intro c hc
                exact hsl c (List.mem_cons_of_mem _ hc)

theorem renders_nil_iff (cs : List Char) : Renders [] cs ↔ cs = [] := by
  constructor
  · intro h; cases h; rfl
  · intro h; rw [h]; exact Renders.nil

theorem renders_lit_iff (c : Char) (ps : List TPiece) (cs : List Char) :
    Renders (.lit c :: ps) cs ↔ ∃ cs', cs = c :: cs' ∧ Renders ps cs' := by
  constructor
  · intro h
    cases h with
    | lit h' => exact ⟨_, rfl, h'⟩
  · rintro ⟨cs', rfl, h⟩
    exact Renders.lit h

theorem renders_hole_iff (n : List Char) (ps : List TPiece) (cs : List Char) :
    Renders (.hole n :: ps) cs ↔
      ∃ s cs', cs = s ++ cs' ∧ s ≠ [] ∧ (∀ c ∈ s, c ≠ '/') ∧ Renders ps cs' := by
  constructor
  · intro h
    cases h with
    | hole s hne hsl h' => exact ⟨s, _, rfl, hne, hsl, h'⟩
  · rintro ⟨s, cs', rfl, hne, hsl, h⟩
    exact Renders.hole s hne hsl h

theorem rmatch_toks_iff (ps : List TPiece) (cs : List Char) :
    rmatch (toksOfPieces ps) cs = true ↔ Renders ps cs := by
  induction ps generalizing cs with
  | nil => rw [toksOfPieces, rmatch_nil_iff, renders_nil_iff]
  | cons p ps' ih =>
      cases p with
      | lit c =>
          rw [toksOfPieces, rmatch_lit_iff, renders_lit_iff]
          exact exists_congr fun cs' => and_congr_right fun _ => ih cs'
      | hole n =>
          rw [toksOfPieces, rmatch_nsp_iff, renders_hole_iff]
          exact exists_congr fun s => exists_congr fun cs' =>
            and_congr_right fun _ => and_congr_right fun _ => and_congr_right fun _ => ih cs'

/-- Claim C3 (amended): for templates built from regex-safe literal
characters and well-formed `{name}` placeholders (nonempty identifier
names, pairwise distinct), the matcher returns `some true` on a path iff
there is a substitution of the placeholders by non-empty slash-free
strings yielding the path; in particular a placeholder-free such
template matches only its exact literal. The claim as stated over all
templates is false: literal regex metacharacters keep their regex
meaning, e.g. the brace-free template `/a.b` matches `/axb` (see the
counterexample). -/
theorem claim_C3_matcher_iff_substitution (ps : List TPiece) (path : List Char)
    (h : PiecesWf ps) :
    matchesTemplate (renderPieces ps) path = some true ↔ Renders ps path := by
  rw [matchesTemplate_renderPieces ps path h, Option.some.injEq]
  exact rmatch_toks_iff ps path

/-- Claim C3 counterexample: the template `/a.b` contains no `{`, yet
the matcher accepts the distinct path `/axb` — `.` keeps its regex
meaning — so "a template containing no `{` matches only its exact
literal string" is false. -/
theorem claim_C3_counterexample :
    matchesTemplate ['/', 'a', '.', 'b'] ['/', 'a', 'x', 'b'] = some true ∧
    '{' ∉ (['/', 'a', '.', 'b'] : List Char) ∧
    (['/', 'a', 'x', 'b'] : List Char) ≠ ['/', 'a', '.', 'b'] :=
  ⟨rfl, by decide, by decide⟩

/-- Witness for the amended C3: the template `/a/{x}` matches `/a/7`
via the substitution `x := "7"`. -/
theorem claim_C3_matcher_iff_substitution_witness :
    matchesTemplate (renderPieces [.lit '/', .lit 'a', .lit '/', .hole ['x']])
      ['/', 'a', '/', '7'] = some true :=
  (claim_C3_matcher_iff_substitution [.lit '/', .lit 'a', .lit '/', .hole ['x']]
      ['/', 'a', '/', '7'] (by decide)).mpr
    (Renders.lit (Renders.lit (Renders.lit
      (Renders.hole ['7'] (by decide) (by decide) Renders.nil))))

/-- Claim C9 (amended): for every well-formed template (regex-safe
literals, well-formed distinct placeholders) and every request path the
matcher totally evaluates to a boolean. The claim as stated is false:
on a template with malformed brace nesting the translated pattern is
not a valid regex, `Regex::new(..).unwrap()` panics
(src/src/main.rs:65), and no boolean — in particular not `false` — is
returned (see the counterexample). -/
theorem claim_C9_wf_templates_total (ps : List TPiece) (path : List Char)
    (h : PiecesWf ps) :
    (matchesTemplate (renderPieces ps) path).isSome := by
  rw [matchesTemplate_renderPieces ps path h]
  rfl

/-- Claim C9 counterexample: the malformed template `}` translates to
the invalid pattern `^>[^/]+)$`, whose compilation fails — the matcher
panics instead of yielding `false`. -/
theorem claim_C9_counterexample :
    matchesTemplate ['}'] ['/', 'x'] = none ∧
    matchesTemplate ['}'] ['/', 'x'] ≠ some false :=
  ⟨rfl, by decide⟩

/-- Witness for the amended C9: the well-formed template `/{id}`
evaluates (to a boolean) on the path `/q`. -/
theorem claim_C9_wf_templates_total_witness :
    (matchesTemplate (renderPieces [.lit '/', .hole ['i', 'd']]) ['/', 'q']).isSome :=
  claim_C9_wf_templates_total [.lit '/', .hole ['i', 'd']] ['/', 'q'] (by decide)

/-! ## Claim C6 -/

theorem opFor_emptyItem (M : String) : opFor emptyItem M = none := by
  unfold opFor emptyItem
  split <;> rfl

theorem opFor_setOp_self (item : PathItem) (op : Operation) {M : String}
    (hM : M ∈ allowedMethods) : opFor (setOp item M op) M = some op := by
  simp only [allowedMethods, List.mem_cons, List.mem_singleton, List.not_mem_nil, or_false] at hM
  rcases hM with rfl | rfl | rfl | rfl | rfl <;> rfl

theorem opFor_setOp_ne (item : PathItem) (op : Operation) {M' M : String}
    (hM : M ∈ allowedMethods) (h : M' ≠ M) :
    opFor (setOp item M' op) M = opFor item M := by
  simp only [allowedMethods, List.mem_cons, List.mem_singleton, List.not_mem_nil, or_false] at hM
  rcases hM with rfl | rfl | rfl | rfl | rfl <;>
    (unfold setOp; split <;> first | rfl | simp_all)

theorem pathLookup_assocUpdate_self (l : List (String × PathItem)) (p : String)
    (f : PathItem → PathItem) :
    pathLookup (assocUpdate l p f) p = some (f ((pathLookup l p).getD emptyItem)) := by
  induction l with
  | nil => simp [assocUpdate, pathLookup]
  | cons qi rest ih =>
      obtain ⟨q, it⟩ := qi
      by_cases hq : q = p
      · subst hq
        simp [assocUpdate, pathLookup]
      · simp [assocUpdate, pathLookup, hq, ih]

theorem pathLookup_assocUpdate_ne (l : List (String × PathItem)) (p' p : String)
    (f : PathItem → PathItem) (h : p' ≠ p) :
    pathLookup (assocUpdate l p' f) p = pathLookup l p := by
  induction l with
  | nil => simp [assocUpdate, pathLookup, h]
  | cons qi rest ih =>
      obtain ⟨q, it⟩ := qi
      by_cases hq : q = p'
      · subst hq
        simp [assocUpdate, pathLookup, h, ih]
      · simp [assocUpdate, pathLookup, hq, ih]

theorem pathLookup_some_mem {l : List (String × PathItem)} {p : String} {it : PathItem}
    (h : pathLookup l p = some it) : (p, it) ∈ l := by
  induction l with
  | nil => exact absurd h (by simp [pathLookup])
  | cons qi rest ih =>
      obtain ⟨q, it'⟩ := qi
      by_cases hq : q = p
      · subst hq
        simp [pathLookup] at h
        subst h
        exact List.mem_cons_self _ _
      · simp [pathLookup, hq] at h
        exact List.mem_cons_of_mem _ (ih h)

theorem mem_keys_assocUpdate (l : List (String × PathItem)) (p : String)
    (f : PathItem → PathItem) (x : String) :
    x ∈ (assocUpdate l p f).map Prod.fst ↔ x ∈ l.map Prod.fst ∨ x = p := by
  induction l with
  | nil => simp [assocUpdate]
  | cons qi rest ih =>
      obtain ⟨q, it⟩ := qi
      by_cases hq : q = p
      · subst hq
        simp [assocUpdate]
        tauto
      · simp [assocUpdate, hq, ih]
        tauto

theorem nodup_keys_assocUpdate (l : List (String × PathItem)) (p : String)
    (f : PathItem → PathItem) (h : (l.map Prod.fst).Nodup) :
    ((assocUpdate l p f).map Prod.fst).Nodup := by
  induction l with
  | nil => simp [assocUpdate]
  | cons qi rest ih =>
      obtain ⟨q, it⟩ := qi
      obtain ⟨hq1, hq2⟩ := List.nodup_cons.mp h
      by_cases hq : q = p
      · subst hq
        simpa [assocUpdate] using h
      · rw [assocUpdate, if_neg hq]
        simp only [List.map_cons, List.nodup_cons]
        refine ⟨?_, ih hq2⟩
        intro hmem
        rcases (mem_keys_assocUpdate rest p f q).mp hmem with hm | hm
        · exact hq1 hm
        · exact hq hm

theorem nodup_keys_exportFold (l : List ((String × String) × LibEndpoint))
    (acc : List (String × PathItem)) (h : (acc.map Prod.fst).Nodup) :
    (((l.foldl exportStep acc)).map Prod.fst).Nodup := by
  induction l generalizing acc with
  | nil => exact h
  | cons kv rest ih =>
      exact ih _ (nodup_keys_assocUpdate acc kv.1.2 _ h)

theorem exportFold_preserve (l : List ((String × String) × LibEndpoint))
    (acc : List (String × PathItem)) (M p : String) (hM : M ∈ allowedMethods)
    (h : ∀ kv ∈ l, kv.1 ≠ (M, p)) :
    opAt (l.foldl exportStep acc) p M = opAt acc p M := by
  induction l generalizing acc with
  | nil => rfl
  | cons kv rest ih =>
      rw [List.foldl_cons,
        ih _ (fun kv' hkv' => h kv' (List.mem_cons_of_mem _ hkv'))]
      obtain ⟨⟨M'', p''⟩, ep''⟩ := kv
      by_cases hp : p'' = p
      · subst hp
        have hM'' : M'' ≠ M := by
          intro hMM
          exact h _ (List.mem_cons_self _ _) (by rw [hMM])
        rw [opAt, exportStep, pathLookup_assocUpdate_self]
        cases hpl : pathLookup acc p'' with
        | some it =>
            rw [opAt, hpl]
            simp only [hpl, Option.getD_some]
            exact opFor_setOp_ne it _ hM hM''
        | none =>
            rw [opAt, hpl]
            simp only [hpl, Option.getD_none]
            exact (opFor_setOp_ne emptyItem _ hM hM'').trans (opFor_emptyItem M)
      · rw [opAt, exportStep, pathLookup_assocUpdate_ne _ _ _ _ hp, opAt]

theorem exportFold_sets (l : List ((String × String) × LibEndpoint))
    (acc : List (String × PathItem)) (M p : String) (ep : LibEndpoint)
    (hM : M ∈ allowedMethods) (hnodup : (l.map Prod.fst).Nodup)
    (hmem : ((M, p), ep) ∈ l) :
    opAt (l.foldl exportStep acc) p M = some (mkExportOp ep) := by
  induction l generalizing acc with
  | nil => cases hmem
  | cons kv rest ih =>
      rcases List.mem_cons.mp hmem with heq | hmem'
      · subst heq
        rw [List.foldl_cons]
        have hrest : ∀ kv' ∈ rest, kv'.1 ≠ (M, p) := by
          intro kv' hkv' hk
          exact (List.nodup_cons.mp hnodup).1
            (List.mem_map.mpr ⟨kv', hkv', hk⟩)
        rw [exportFold_preserve rest _ M p hM hrest]
        rw [opAt, exportStep, pathLookup_assocUpdate_self]
        show opFor (setOp ((pathLookup acc p).getD emptyItem) M (mkExportOp ep)) M =
          some (mkExportOp ep)
        exact opFor_setOp_self _ _ hM
      · exact ih _ (List.nodup_cons.mp hnodup).2 hmem'

theorem endpointOfOp_mkExportOp (ep : LibEndpoint)
    (h : ep.status = 200 ∨ ep.status = 201 ∨ ep.status = 202 ∨ ep.status = 204) :
    endpointOfOp (mkExportOp ep) =
      ⟨ep.response, ep.status, some [("Content-Type", "application/json")], none⟩ := by
  obtain ⟨r, st, hd, pu⟩ := ep
  simp only at h
  rcases h with rfl | rfl | rfl | rfl <;> rfl

/-- Claim C6 (amended): exporting the dynamic store to an OpenAPI
document and importing it back preserves each endpoint's status code
and response example for endpoints whose status is one of 200, 201,
202, 204 (the statuses the import preference order can select); the
reimported endpoint carries the import's standard `Content-Type` header
and no proxy URL. The claim as stated over all stores is false: any
other status (e.g. 404) is collapsed to 200 and its example replaced by
`{"message": "OK"}` by the import side, see the counterexample. -/
theorem claim_C6_roundtrip_preserves (store : List ((String × String) × LibEndpoint))
    (M p : String) (ep : LibEndpoint)
    (hnodup : (store.map Prod.fst).Nodup)
    (hmem : ((M, p), ep) ∈ store)
    (hM : M ∈ allowedMethods)
    (hst : ep.status = 200 ∨ ep.status = 201 ∨ ep.status = 202 ∨ ep.status = 204) :
    lookupKey (lib_import (export_openapi store) []) (M, p) =
      some ⟨ep.response, ep.status, some [("Content-Type", "application/json")], none⟩ := by
  have hopAt := exportFold_sets store [] M p ep hM hnodup hmem
  rw [opAt] at hopAt
  cases hpl : pathLookup (store.foldl exportStep []) p with
  | none => rw [hpl] at hopAt; simp at hopAt
  | some item =>
      have hop : opFor item M = some (mkExportOp ep) := by
        rw [hpl] at hopAt
        exact hopAt
      have hpaths : (p, ItemOrRef.item item) ∈ (export_openapi store).paths :=
        List.mem_map.mpr ⟨(p, item), pathLookup_some_mem hpl, rfl⟩
      have hnodup' : ((export_openapi store).paths.map Prod.fst).Nodup := by
        rw [export_openapi]
        simp only [List.map_map]
        exact nodup_keys_exportFold store [] (by simp)
      rw [lib_import, foldl_insertKey_lookup,
        lookupLast_importEntries (export_openapi store).paths p item M hM hnodup' hpaths,
        hop, Option.map_some', endpointOfOp_mkExportOp ep hst]

/-- Claim C6 counterexample: round-tripping a store holding `GET /x`
with status 404 and example `{"a": 1}` yields status 200 and body
`{"message": "OK"}` — neither the status nor the example is
preserved. -/
theorem claim_C6_counterexample :
    lookupKey storeC6 ("GET", "/x") =
      some ⟨Json.obj [("a", Json.num 1)], 404, none, none⟩ ∧
    lookupKey (lib_import (export_openapi storeC6) []) ("GET", "/x") =
      some ⟨messageOK, 200, some [("Content-Type", "application/json")], none⟩ ∧
    (200 : Nat) ≠ 404 :=
  ⟨rfl, rfl, by decide⟩

/-- Witness for the amended C6: a 201-status endpoint with body
`{"id": 7}` survives the round trip with status and example intact. -/
theorem claim_C6_roundtrip_preserves_witness :
    lookupKey (lib_import (export_openapi
        [(("POST", "/y"), ⟨Json.obj [("id", Json.num 7)], 201, none, none⟩)]) [])
      ("POST", "/y") =
      some ⟨Json.obj [("id", Json.num 7)], 201, some [("Content-Type", "application/json")], none⟩ :=
  claim_C6_roundtrip_preserves
    [(("POST", "/y"), ⟨Json.obj [("id", Json.num 7)], 201, none, none⟩)]
    "POST" "/y" ⟨Json.obj [("id", Json.num 7)], 201, none, none⟩
    (by decide) (List.mem_singleton.mpr rfl) (by decide) (Or.inr (Or.inl rfl))

end RustMock
